import Mathlib

/-!
# Verification of the gud-cli core against its specification

This file embeds the parts of the gud-cli source that the checked claims are
about, and proves or refutes each claim over that embedding.

Conventions of the embedding:
* JS strings are modelled as `List Char`; delimiters (always a single
  character in the source defaults and in every claim) are modelled as `Char`.
* JS arrays are Lean lists; `Array.prototype.join` / `String.prototype.split`
  are modelled by `jsJoin` / `jsSplit` below, keeping JS edge cases
  (empty pieces are kept, `''.split(d) = ['']`).
* Fallible code returns `Except`/`Option`; `throw` paths are `Except.error`.
* Asynchronous code is modelled with explicit sequencing; an `await` boundary
  inside a handler body is a segment boundary, and a promise whose result is
  dropped (never awaited) has its remaining segments deferred until after the
  current call chain completes (the behaviour of a promise that resolves only
  after the currently-awaited chain, e.g. one performing I/O).
-/

/- ## Token utilities (src/packages/cli/src/utils/tokens.ts) -/

/-- JS `String.prototype.split` with a single-character separator: partition at
every occurrence of the separator, keeping empty pieces, and `''.split(d)`
gives `['']`. -/
def jsSplit (d : Char) : List Char → List (List Char)
  | [] => [[]]
  | c :: rest =>
    match jsSplit d rest with
    | [] => [[c]]
    | t :: ts => if c = d then [] :: t :: ts else (c :: t) :: ts

/-- JS `Array.prototype.join` with a single-character separator. -/
def jsJoin (d : Char) : List (List Char) → List Char
  | [] => []
  | [t] => t
  | t :: t2 :: ts => t ++ d :: jsJoin d (t2 :: ts)

/-- The loop of `splitTokens` from tokens.ts.  The three accumulator arguments
mirror the source locals `tokens`, `currentQuotedToken` and `inQuotes`; the
first argument is the list of sub-tokens produced by
`commandString.split(delimiter)` that remain to be visited. -/
def splitTokensLoop (d : Char) :
    List (List Char) → List (List Char) → List (List Char) → Bool →
    List (List Char)
  | [], acc, _cur, _inQ => acc
  | tok :: rest, acc, cur, true =>
    if tok.getLast? = some '"' then
      splitTokensLoop d rest (acc ++ [jsJoin d (cur ++ [tok.dropLast])]) []
        false
    else
      splitTokensLoop d rest acc (cur ++ [tok]) true
  | tok :: rest, acc, cur, false =>
    if tok.head? = some '"' ∧ tok.getLast? ≠ some '"' then
      splitTokensLoop d rest acc (cur ++ [tok.drop 1]) true
    else
      splitTokensLoop d rest (acc ++ [tok.filter (· ≠ '"')]) cur false

/-- `splitTokens(commandString, delimiter = ' ')` from tokens.ts: split a
command string on the delimiter, merging sub-tokens opened by a quote until a
closing quote; an empty input returns the empty list. -/
def splitTokens (s : List Char) (d : Char) : List (List Char) :=
  if s = [] then [] else splitTokensLoop d (jsSplit d s) [] [] false

/-- The `JoinableTokens` argument tree of `joinTokens`: a string or an
arbitrarily nested list of such values. -/
inductive JTok where
  | str : List Char → JTok
  | arr : List JTok → JTok

/-- `token.replaceAll('"', '\\"')` from the quote-wrapping branch of
`joinTokens`. -/
def escapeQuotes : List Char → List Char
  | [] => []
  | c :: rest =>
    if c = '"' then '\\' :: '"' :: escapeQuotes rest else c :: escapeQuotes rest

mutual

/-- One element of the `tokens.map(...)` callback inside `joinTokens`; `n` is
`tokens.length` of the surrounding call (the number of sibling arguments after
the options object has been popped).  Note the source tests
`token.includes(' ')` — a literal space — not the configured delimiter, and
skips tokens that already start and end with a quote. -/
def joinTok : JTok → Char → Bool → Nat → List Char
  | .str s, _d, w, n =>
    if w ∧ n > 1 ∧ ' ' ∈ s ∧ ¬(s.head? = some '"' ∧ s.getLast? = some '"') then
      '"' :: (escapeQuotes s ++ ['"'])
    else s
  | .arr l, d, w, _n => jsJoin d (joinArr l d w l.length)

/-- `tokens.map(...)` over a list of joinable tokens, each mapped with sibling
count `n`. -/
def joinArr : List JTok → Char → Bool → Nat → List (List Char)
  | [], _, _, _ => []
  | t :: ts, d, w, n => joinTok t d w n :: joinArr ts d w n

end

/-- `joinTokens(...args)` from tokens.ts after the trailing options object (if
any) has been popped: `args` are the remaining arguments, `d` the effective
delimiter (default `' '`), `w` the effective `wrapInQuotes` (default true). -/
def joinTokens (args : List JTok) (d : Char) (w : Bool) : List Char :=
  jsJoin d (joinArr args d w args.length)

mutual

/-- Flattening of a joinable-token tree to its leaf strings, depth first. -/
def flattenJTok : JTok → List (List Char)
  | .str s => [s]
  | .arr l => flattenArr l

/-- Flattening of a list of joinable-token trees. -/
def flattenArr : List JTok → List (List Char)
  | [] => []
  | t :: ts => flattenJTok t ++ flattenArr ts

end

/-- The joining behaviour that claim C8 ascribes to `joinTokens`, written from
the claim's words (for comparison with the implementation): flatten arbitrarily
nested lists, drop empty strings, and wrap any token containing the configured
delimiter in quotes — escaping inner quotes — whenever there is more than one
token and `wrapInQuotes` is true. -/
def joinTokensSpecC8 (args : List JTok) (d : Char) (w : Bool) : List Char :=
  let toks := (flattenArr args).filter (· ≠ [])
  jsJoin d (toks.map fun t =>
    if w ∧ toks.length > 1 ∧ d ∈ t then '"' :: (escapeQuotes t ++ ['"'])
    else t)

mutual

/-- A joinable-token tree whose leaves contain no space character and whose
nested lists are non-empty: on such trees `joinTokens` performs no quote
wrapping and inserts no delimiter for a spurious empty nested join. -/
def BenignTok : JTok → Prop
  | .str s => ' ' ∉ s
  | .arr l => l ≠ [] ∧ BenignList l

/-- `BenignTok` for every element of a list. -/
def BenignList : List JTok → Prop
  | [] => True
  | t :: ts => BenignTok t ∧ BenignList ts

end

/- ## Hook registry (src/packages/cli/src/core/hooks.ts) -/

/-- An action a hook handler can take during one synchronous segment of its
body: mutate the shared payload (through a mutator environment `mu`), or
register another handler on the registry via `on` / `once`.  Handler bodies
are identified by an id into a body environment. -/
inductive HandlerAction where
  | mutate (i : Nat)
  | onAdd (hook : String) (hid : Nat)
  | onceAdd (hook : String) (hid : Nat)
  deriving DecidableEq, Repr

/-- A handler body: the list of synchronous segments separated by `await`
points.  A synchronous handler has a single segment; an async handler has one
segment per stretch between `await`s. -/
abbrev HandlerBody := List (List HandlerAction)

/-- How a handler function is stored in a registry array: directly (`on`), or
as the self-removing wrapper built by `once` (`wrapped = true`).  `inst` is
the identity of the stored function object, used by `off`'s
`existing === handler` test. -/
structure HandlerEntry where
  inst : Nat
  wrapped : Bool
  hid : Nat
  deriving DecidableEq, Repr

/-- The mutable state of a `HookRegistry` together with the JS heap of handler
arrays.  `heap` holds every array object ever allocated: arrays are mutated in
place by `on`'s `push`, but `off`'s `filter` allocates a new array and
repoints the registry at it, leaving the old array object intact (which is
what an in-progress `call` iterates).  `hooks` maps each hook name to the
index of its current array, mirroring `#handlers`; `payload` is the shared
payload object; `deferred` collects the unawaited remainders of
`once`-wrapped async handlers, which run only after the current call chain
completes. -/
structure HookState (Sig : Type) where
  heap : List (List HandlerEntry)
  hooks : List (String × Nat)
  fresh : Nat
  payload : Sig
  deferred : List HandlerBody
  deriving DecidableEq, Repr

/-- `this.#handlers[hook]`: the array object currently registered for a hook
name, if any. -/
def lookupHook {Sig : Type} (st : HookState Sig) (hook : String) : Option Nat :=
  (st.hooks.find? (fun p => p.1 == hook)).map (fun p => p.2)

/-- Repoint a hook name at a (new) array index, keeping insertion order. -/
def setHook (hooks : List (String × Nat)) (hook : String) (aid : Nat) :
    List (String × Nat) :=
  match hooks with
  | [] => [(hook, aid)]
  | (k, v) :: rest =>
    if k == hook then (k, aid) :: rest else (k, v) :: setHook rest hook aid

/-- `HookRegistry.on` (and the registration step of `once`, which passes the
self-removing wrapper): `this.#handlers[hook] ||= []` followed by a `push` of
the new handler function onto the current array — in place, so an in-progress
`call` iterating that array also sees the new entry. -/
def hookOn {Sig : Type} (hook : String) (wrapped : Bool) (hid : Nat)
    (st : HookState Sig) : HookState Sig :=
  let entry : HandlerEntry := ⟨st.fresh, wrapped, hid⟩
  match lookupHook st hook with
  | some aid =>
    { st with
      heap := st.heap.set aid (st.heap.getD aid [] ++ [entry])
      fresh := st.fresh + 1 }
  | none =>
    { st with
      heap := st.heap ++ [[entry]]
      hooks := setHook st.hooks hook st.heap.length
      fresh := st.fresh + 1 }

/-- `HookRegistry.off` by function identity, as used by the `once` wrapper's
self-removal: `this.#handlers[hook] = handlers.filter(...)` allocates a new
array with every matching entry removed and repoints the registry at it; the
old array object is left untouched. -/
def hookOff {Sig : Type} (hook : String) (inst : Nat) (st : HookState Sig) :
    HookState Sig :=
  match lookupHook st hook with
  | none => st
  | some aid =>
    { st with
      heap := st.heap ++ [(st.heap.getD aid []).filter (fun e => e.inst ≠ inst)]
      hooks := setHook st.hooks hook st.heap.length }

/-- One payload-or-registry action of a handler body, interpreted against the
mutator environment `mu`. -/
def runAction {Sig : Type} (mu : Nat → Sig → Sig) (a : HandlerAction)
    (st : HookState Sig) : HookState Sig :=
  match a with
  | .mutate i => { st with payload := mu i st.payload }
  | .onAdd hook hid => hookOn hook false hid st
  | .onceAdd hook hid => hookOn hook true hid st

/-- Run one synchronous segment of a handler body. -/
def runSeg {Sig : Type} (mu : Nat → Sig → Sig) (seg : List HandlerAction)
    (st : HookState Sig) : HookState Sig :=
  seg.foldl (fun s a => runAction mu a s) st

/-- Run a whole handler body to completion (every segment, i.e. the handler is
awaited across each of its `await` points). -/
def runBody {Sig : Type} (mu : Nat → Sig → Sig) (body : HandlerBody)
    (st : HookState Sig) : HookState Sig :=
  body.foldl (fun s seg => runSeg mu seg s) st

/-- `await handler(...args)` for one stored entry during `call`.  A plain
(`on`-registered) handler is fully awaited: every segment of its body runs
before the loop continues.  A `once` wrapper first removes itself via `off`,
then invokes the user handler WITHOUT awaiting or returning its result
(`handler(...args)` in the source), so only the handler's first synchronous
segment runs now; its remaining segments are deferred until after the current
call chain completes. -/
def invokeEntry {Sig : Type} (mu : Nat → Sig → Sig) (bodies : Nat → HandlerBody)
    (hook : String) (e : HandlerEntry) (st : HookState Sig) : HookState Sig :=
  if e.wrapped then
    let st1 := hookOff hook e.inst st
    match bodies e.hid with
    | [] => st1
    | seg1 :: restSegs =>
      let st2 := runSeg mu seg1 st1
      { st2 with deferred := st2.deferred ++ [restSegs] }
  else
    runBody mu (bodies e.hid) st

/-- The `for (const handler of handlers) await handler(...)` loop of
`HookRegistry.call`: `aid` is the array object captured at entry
(`const handlers = this.#handlers[hook]`), and the loop reads the live
contents of that array object at each index, so entries pushed onto it during
the loop are visited too.  `fuel` bounds the number of iterations (handlers
that keep registering handlers can extend the loop without bound). -/
def callLoop {Sig : Type} (mu : Nat → Sig → Sig) (bodies : Nat → HandlerBody)
    (hook : String) (aid : Nat) :
    Nat → Nat → HookState Sig → HookState Sig
  | 0, _, st => st
  | fuel + 1, i, st =>
    match (st.heap.getD aid []).get? i with
    | none => st
    | some e =>
      callLoop mu bodies hook aid fuel (i + 1) (invokeEntry mu bodies hook e st)

/-- `HookRegistry.call(hook, payload)`: look up the current handler array for
the hook (returning immediately when there is none) and run the loop.  The
returned state is the state at the moment the promise returned by `call`
resolves; `deferred` still holds the unawaited remainders of `once`
handlers. -/
def hookCall {Sig : Type} (mu : Nat → Sig → Sig) (bodies : Nat → HandlerBody)
    (hook : String) (fuel : Nat) (st : HookState Sig) : HookState Sig :=
  match lookupHook st hook with
  | none => st
  | some aid => callLoop mu bodies hook aid fuel 0 st

/-- Drain the deferred (never-awaited) handler remainders: the eventual state
once the event loop has run every pending continuation. -/
def drainDeferred {Sig : Type} (mu : Nat → Sig → Sig) (st : HookState Sig) :
    HookState Sig :=
  st.deferred.foldl (fun s segs => runBody mu segs s) { st with deferred := [] }

/-- A fresh `HookRegistry` (no initial handlers) with shared payload `p`. -/
def emptyHooks {Sig : Type} (p : Sig) : HookState Sig := ⟨[], [], 0, p, []⟩

/-- `true` iff the action is a pure payload mutation (no registry effect). -/
def isMutate : HandlerAction → Bool
  | .mutate _ => true
  | _ => false

/-- A handler body whose actions only mutate the payload. -/
abbrev PureBody (b : HandlerBody) : Prop := ∀ seg ∈ b, ∀ a ∈ seg, isMutate a = true

/-- The payload-level effect of one pure segment. -/
def applySeg {Sig : Type} (mu : Nat → Sig → Sig) (seg : List HandlerAction)
    (q : Sig) : Sig :=
  seg.foldl (fun q a => match a with | .mutate i => mu i q | _ => q) q

/-- The payload-level effect of a pure handler body. -/
def applyBody {Sig : Type} (mu : Nat → Sig → Sig) (b : HandlerBody) (q : Sig) :
    Sig :=
  b.foldl (fun q seg => applySeg mu seg q) q

/- ## Context.throw and Context.execute (src/packages/cli/src/core/context.ts) -/

/-- An action a `beforeError` hook handler can take through its payload
mutators: replace the error (`setError`) or suppress it (`ignore`). -/
inductive ErrorAction (E : Type) where
  | setError (e : E)
  | ignore
  deriving DecidableEq

/-- One handler's actions over the local variables `error` and `ignore` of
`Context.throw`: `setError` updates `error`, `ignore` sets the flag. -/
def runErrorActions {E : Type} (acts : List (ErrorAction E)) (s : E × Bool) :
    E × Bool :=
  acts.foldl (fun s a =>
    match a with
    | .setError e => (e, s.2)
    | .ignore => (s.1, true)) s

/-- `Context.throw(error)`: build the `beforeError` payload — whose `error`
field is the value of `error` at payload construction — await every handler in
order, then `if (!ignore) throw error`.  The first component is the payload's
`error` field; the second is the outcome: `some e` when `throw e` propagates,
`none` when the error was suppressed (nothing else happens in that case, so
execution is left as it was). -/
def contextThrow {E : Type} (handlers : List (List (ErrorAction E)))
    (err : E) : E × Option E :=
  let payloadError := err
  let final := handlers.foldl (fun s acts => runErrorActions acts s)
    (err, false)
  (payloadError, if final.2 then none else some final.1)

/-- Whether any handler action calls `ignore`. -/
def ignoresError {E : Type} (handlers : List (List (ErrorAction E))) : Bool :=
  handlers.any (fun acts => acts.any (fun a =>
    match a with
    | .ignore => true
    | _ => false))

/-- The error after all `setError` replacements have been applied in handler
order. -/
def replacedError {E : Type} (handlers : List (List (ErrorAction E)))
    (err : E) : E :=
  handlers.foldl (fun e acts => acts.foldl (fun e a =>
    match a with
    | .setError e2 => e2
    | .ignore => e) e) err

/-- An action a `beforeExecute` hook handler can take through its payload
mutators (`skip`, `setResultAndSkip`, `setInitialData`). -/
inductive BeforeExecuteAction (V : Type) where
  | skip
  | setResultAndSkip (v : V)
  | setInitialData (v : V)
  deriving DecidableEq

/-- An action an `afterExecute` hook handler can take (its only payload
mutator is `setResult`). -/
inductive AfterExecuteAction (V : Type) where
  | setResult (v : V)
  deriving DecidableEq

/-- One handler's actions over the local variables `initialData`, `result`
and `skipped` of `Context.execute`: `skip()` sets `skipped`;
`setResultAndSkip(v)` sets `result` and `skipped`; `setInitialData(v)` sets
both `initialData` and `result`. -/
def runBeforeExecuteActions {V : Type} (acts : List (BeforeExecuteAction V))
    (s : V × V × Bool) : V × V × Bool :=
  acts.foldl (fun s a =>
    match a with
    | .skip => (s.1, s.2.1, true)
    | .setResultAndSkip v => (s.1, v, true)
    | .setInitialData v => (v, v, s.2.2)) s

/-- One handler's actions over the local variable `result` during the
`afterExecute` dispatch. -/
def runAfterExecuteActions {V : Type} (acts : List (AfterExecuteAction V))
    (r : V) : V :=
  acts.foldl (fun _r a => match a with | .setResult v => v) r

/-- The collaborators `Context.execute` interacts with: the `beforeExecute`,
`afterExecute` and `beforeError` hook handlers (each an ordered list of
payload-mutator actions), the `#isReady` flag, the behaviour of
`state.start(initialData)` followed by reading `state.data` (`.ok` = final
data, `.error` = the handler chain threw), and the "Context isn't ready"
`CliError` object. -/
structure ExecuteEnv (V E : Type) where
  beforeExecute : List (List (BeforeExecuteAction V))
  afterExecute : List (List (AfterExecuteAction V))
  beforeError : List (List (ErrorAction E))
  isReady : Bool
  startFn : V → Except E V
  notReadyErr : E

/-- The observable outcome of `Context.execute(initialData)` when it returns
normally: the returned result (also stored in `#result`), whether
`state.start` was invoked, and the `afterExecute` payload — the field names
of the object literal the source builds for it, and its `result` field
value. -/
structure ExecuteResult (V : Type) where
  result : V
  started : Bool
  afterPayloadFields : List String
  afterPayloadResult : V
  deriving DecidableEq

/-- `Context.execute(initialData)` from context.ts:
1. create a `State` and dispatch `beforeExecute` over the locals
   `initialData` / `result` / `skipped`;
2. `if (!skipped && !this.#isReady) await this.throw(new CliError(...))` —
   the throw propagates out of `execute` unless a `beforeError` handler
   ignores it;
3. `if (!skipped)` run `state.start(initialData)`; on success
   `result = state.data`, on exception delegate to `this.throw` (when
   ignored, `result` keeps its pre-start value);
4. dispatch `afterExecute` with payload `{ result, state, setResult }`;
5. store and return `result`. -/
def contextExecute {V E : Type} (env : ExecuteEnv V E) (initialData : V) :
    Except E (ExecuteResult V) :=
  let s := env.beforeExecute.foldl
    (fun s acts => runBeforeExecuteActions acts s)
    (initialData, initialData, false)
  let initialData1 := s.1
  let result1 := s.2.1
  let skipped := s.2.2
  let readyCheck : Except E Unit :=
    if !skipped && !env.isReady then
      match (contextThrow env.beforeError env.notReadyErr).2 with
      | some e => .error e
      | none => .ok ()
    else .ok ()
  match readyCheck with
  | .error e => .error e
  | .ok () =>
    let step : Except E (V × Bool) :=
      if skipped then .ok (result1, false)
      else
        match env.startFn initialData1 with
        | .ok d => .ok (d, true)
        | .error e =>
          match (contextThrow env.beforeError e).2 with
          | some e2 => .error e2
          | none => .ok (result1, true)
    match step with
    | .error e => .error e
    | .ok (result2, started) =>
      let afterPayloadFields := ["result", "state", "setResult"]
      let result3 := env.afterExecute.foldl
        (fun r acts => runAfterExecuteActions acts r) result2
      .ok ⟨result3, started, afterPayloadFields, result2⟩

/-- Whether the flattened `beforeExecute` actions set `skipped` (via `skip`
or `setResultAndSkip`). -/
def callsSkip {V : Type} (acts : List (BeforeExecuteAction V)) : Bool :=
  acts.any (fun a =>
    match a with
    | .skip => true
    | .setResultAndSkip _ => true
    | _ => false)

/-- Whether the flattened `beforeExecute` actions contain a
`setInitialData`. -/
def hasSetInitialData {V : Type} (acts : List (BeforeExecuteAction V)) :
    Bool :=
  acts.any (fun a =>
    match a with
    | .setInitialData _ => true
    | _ => false)

/-- The value of the `result` local after the `beforeExecute` dispatch, for
action lists without `setInitialData`: the last `setResultAndSkip` value, or
the starting value when there is none. -/
def resultAfter {V : Type} (acts : List (BeforeExecuteAction V)) (r0 : V) :
    V :=
  acts.foldl (fun r a =>
    match a with
    | .setResultAndSkip v => v
    | _ => r) r0

/- ## Plugin preparation (src/packages/cli/src/core/context.ts constructor and
preparePlugins, src/packages/cli/src/core/plugin.ts) -/

/-- The metadata of a plugin together with the behaviour of its `init`
function: `none` = `init` succeeds (or is undefined), `some e` = `init`
throws `e`. -/
structure PluginModel (E : Type) where
  name : String
  version : Option String
  initThrows : Option E
  deriving DecidableEq

/-- One entry of `Context.plugins`: the stored metadata plus `isReady`. -/
structure PluginInfoModel where
  name : String
  version : Option String
  isReady : Bool
  deriving DecidableEq

/-- `Object.freeze(Object.fromEntries(plugins.map(...)))` from the Context
constructor.  JS object-key semantics: a duplicate name does not raise —
its entry stays at the first occurrence's position and its value is
overwritten by the later duplicate's metadata.  No code path raises
`PluginError` here. -/
def buildPluginInfos {E : Type} (ps : List (PluginModel E)) :
    List (String × PluginInfoModel) :=
  ps.foldl (fun acc p =>
    if acc.any (fun q => q.1 == p.name) then
      acc.map (fun q =>
        if q.1 == p.name then (q.1, ⟨p.name, p.version, false⟩) else q)
    else acc ++ [(p.name, ⟨p.name, p.version, false⟩)]) []

/-- `this.plugins[name]` lookup. -/
def lookupInfo (infos : List (String × PluginInfoModel)) (name : String) :
    Option PluginInfoModel :=
  (infos.find? (fun q => q.1 == name)).map (fun q => q.2)

/-- `info.isReady = true` on the (shared) entry for a name. -/
def setReady (infos : List (String × PluginInfoModel)) (name : String) :
    List (String × PluginInfoModel) :=
  infos.map (fun q =>
    if q.1 == name then (q.1, { q.2 with isReady := true }) else q)

/-- The `for (const { name, init } of this.#plugins)` loop of
`Context.preparePlugins`, with the surrounding try/catch: `idx` is the index
of the current plugin, `ran` the indices whose `init` was invoked.  A plugin
whose info entry is missing or already ready is skipped (`continue`).  When an
`init` throws, the catch delegates to `this.throw`: if a `beforeError`
handler ignores the error, `preparePlugins` returns normally with the loop
aborted; otherwise the error propagates. -/
def preparePluginsLoop {E : Type}
    (beforeError : List (List (ErrorAction E))) :
    List (PluginModel E) → Nat → List (String × PluginInfoModel) →
    List Nat → Except E (List (String × PluginInfoModel) × List Nat)
  | [], _idx, infos, ran => .ok (infos, ran)
  | p :: rest, idx, infos, ran =>
    match lookupInfo infos p.name with
    | none => preparePluginsLoop beforeError rest (idx + 1) infos ran
    | some info =>
      if info.isReady then
        preparePluginsLoop beforeError rest (idx + 1) infos ran
      else
        match p.initThrows with
        | some e =>
          match (contextThrow beforeError e).2 with
          | some e2 => .error e2
          | none => .ok (infos, ran)
        | none =>
          preparePluginsLoop beforeError rest (idx + 1)
            (setReady infos p.name) (ran ++ [idx])

/-- `Context.preparePlugins` over the info map built by the constructor. -/
def preparePlugins {E : Type} (beforeError : List (List (ErrorAction E)))
    (ps : List (PluginModel E)) :
    Except E (List (String × PluginInfoModel) × List Nat) :=
  preparePluginsLoop beforeError ps 0 (buildPluginInfos ps) []

/- ## The run facade (src/unnamed/part_008, `run`) -/

/-- The error-class taxonomy relevant to `run`'s catch clause, following the
`extends` chains in the source (client.ts: `ClientError extends CliError`;
plugin.ts: `PluginError extends CliError`; context.ts:
`SubcommandRequiredError extends UsageError`, itself a `CliError` per the
error taxonomy).  `otherError` stands for any thrown value that is not an
instance of `CliError`; `wrappedCliError e` is `new CliError(e)`. -/
inductive JsError where
  | clientError (msg : String)
  | cliError (msg : String)
  | wrappedCliError (cause : JsError)
  | pluginError (msg : String)
  | usageError (msg : String)
  | otherError (msg : String)
  deriving DecidableEq

/-- JS `error instanceof ClientError`. -/
def instanceofClientError : JsError → Bool
  | .clientError _ => true
  | _ => false

/-- JS `error instanceof CliError`: true for every class of the taxonomy
except values that do not extend `CliError`. -/
def instanceofCliError : JsError → Bool
  | .otherError _ => false
  | _ => true

/-- What `run` hands back to its caller on the non-throwing paths: the
prepared result, or a `ClientError` returned as the result. -/
inductive RunReturn (V : Type) where
  | value (v : V)
  | clientErr (e : JsError)
  deriving DecidableEq

/-- The `try { await context.prepare(); await context.execute(initialData);
return context.result } catch (error) { ... }` of the `run` facade:
`outcome` is the behaviour of the try body (`.ok` = the result read from the
context, `.error` = the value it threw).  The catch returns a `ClientError`
as the result, rethrows a `CliError` unchanged, and wraps anything else in a
new `CliError` before rethrowing. -/
def runCatch {V : Type} (outcome : Except JsError V) :
    Except JsError (RunReturn V) :=
  match outcome with
  | .ok v => .ok (.value v)
  | .error e =>
    if instanceofClientError e then .ok (.clientErr e)
    else if instanceofCliError e then .error e
    else .error (.wrappedCliError e)

/- ## resolveParamCommand (third file of the src/packages/cli/src/core/
plugin.ts concatenation, the resolver) -/

/-- `splitTokens(commandString)` over Lean `String`s, as the resolver calls
it. -/
def splitTokensS (s : String) : List String :=
  (splitTokens s.data ' ').map (fun l => String.mk l)

/-- `joinTokens(tokens)` over Lean `String`s with default options (one
list-of-strings argument). -/
def joinTokensS (tokens : List String) : String :=
  String.mk (joinTokens [.arr (tokens.map (fun t => JTok.str t.data))] ' ' true)

/-- The field of a command module that `resolveParamCommand` consults: its
options config, modelled as the list of declared option keys (opaque to the
resolver, which only forwards it to `parseFn`). -/
structure CommandModuleM where
  options : Option (List String)
  deriving DecidableEq

/-- A route-param value: a single token (`[name]`, and the directory
fallback) or the full parsed token list (`[...name]`). -/
inductive ParamValue where
  | str (s : String)
  | list (l : List String)
  deriving DecidableEq

/-- The fields of the `ResolvedCommand` object built by
`resolveParamCommand`; `passThrough` records whether `command` is the
pass-through module of the directory fallback. -/
structure ResolvedCommandM where
  passThrough : Bool
  commandName : String
  commandPath : String
  commandTokens : List String
  params : List (String × ParamValue)
  remainingCommandString : String
  subcommandsDir : String
  deriving DecidableEq

/-- The filesystem / module-loader collaborators of `resolveParamCommand`:
`readdir` is `readdirSync`, `importMod` is dynamic `import` (`.error` = it
threw, `.ok none` = the module resolved but has no default export,
`.ok (some m)` = default export `m`), and `isFile` is the extension-probing
check of src/unnamed/part_006. -/
structure ResolveEnv where
  readdir : String → List String
  importMod : String → Except JsError (Option CommandModuleM)
  isFile : String → Bool

/-- Modelled from the spec: the recognised module extensions — the spec's
directory convention (§6) speaks of `commandName.ext` files and `isFile`
(src/unnamed/part_006) probes exactly these fallback extensions. -/
def knownExtensions : List String := [".js", ".cjs", ".mjs", ".ts", ".cts", ".mts"]

/-- `s.endsWith suffix`, computed over the character lists (the `String`
primitives do not reduce well in proofs). -/
def strEndsWith (s suffix : String) : Bool :=
  decide (suffix.data.length ≤ s.data.length) &&
    (s.data.drop (s.data.length - suffix.data.length) == suffix.data)

/-- `s.startsWith p`, computed over the character lists. -/
def strStartsWith (s p : String) : Bool :=
  s.data.take p.data.length == p.data

/-- `s.drop n`, computed over the character lists. -/
def strDrop (s : String) (n : Nat) : String := String.mk (s.data.drop n)

/-- `s.dropRight n`, computed over the character lists. -/
def strDropRight (s : String) (n : Nat) : String :=
  String.mk (s.data.take (s.data.length - n))

/-- Modelled from the spec: `removeFileExtension` (src/utils/filename is not
under src/) strips one trailing recognised module extension, per the
`commandName.ext` naming of §6. -/
def removeFileExtension (fileName : String) : String :=
  match knownExtensions.find? (fun ext => strEndsWith fileName ext) with
  | some ext => strDropRight fileName ext.length
  | none => fileName

/-- Modelled from the spec: `parseFileName` (src/utils/filename is not under
src/) recognises the route-param file name patterns of §4.3/§6 —
`[name].ext` (single-token param) and `[...name].ext` (rest param) —
returning the `spreadOperator` flag and the `paramName`. -/
def parseFileName (fileName : String) : Bool × Option String :=
  let base := removeFileExtension fileName
  if strStartsWith base "[..." && strEndsWith base "]" then
    (true, some (strDropRight (strDrop base 4) 1))
  else if strStartsWith base "[" && strEndsWith base "]" then
    (false, some (strDropRight (strDrop base 1) 1))
  else (false, none)

/-- Modelled from the spec: `formatFileName` (src/utils/filename is not under
src/) maps a command name to the loader-facing file name; the path strings
are opaque to everything this claim checks, so it is the identity here. -/
def formatFileName (name : String) : String := name

/-- `node:path.join` for the two-argument uses of the resolver. -/
def joinPath (a b : String) : String := a ++ "/" ++ b

/-- The `for (const fileName of fileNames)` loop of `resolveParamCommand`:
skip entries that are not param file names; for the first param entry, try
loading the module — when it has an `options` config, re-parse the command
string against it so `tokens` holds only non-option tokens — and build the
resolved command: for a spread param, `params[name]` is the (possibly
re-parsed) token list and the remaining command string is emptied; otherwise
`params[name]` is the current token.  When the import fails and the path is
not a file (a directory), fall back to a pass-through command whose
`params[name]` is just the current token; when the path IS a file, rethrow
(including the `MissingDefaultExportError` thrown inside the try block when
the default export is missing).  The loop breaks after the first param
entry. -/
def resolveParamLoop (env : ResolveEnv)
    (parseFn : String → List String → List String) (commandString : String)
    (commandsDir : String) :
    List String → Except JsError (Option ResolvedCommandM)
  | [] => .ok none
  | fileName :: restFiles =>
    match (parseFileName fileName).2 with
    | none => resolveParamLoop env parseFn commandString commandsDir restFiles
    | some paramName =>
      let spreadOp := (parseFileName fileName).1
      let tokens := splitTokensS commandString
      let commandName := removeFileExtension fileName
      let commandPath := joinPath commandsDir (formatFileName commandName)
      let subcommandsDir := removeFileExtension commandPath
      let commandToken := tokens.headD ""
      let remainingTokens := tokens.tail
      let remainingCommandString :=
        if spreadOp then "" else joinTokensS remainingTokens
      match env.importMod commandPath with
      | .ok (some command) =>
        let tokens2 :=
          match command.options with
          | some opts => parseFn commandString opts
          | none => tokens
        .ok (some
          { passThrough := false
            commandName := commandName
            commandPath := commandPath
            commandTokens := if spreadOp then tokens2 else [commandToken]
            params :=
              [(paramName,
                if spreadOp then ParamValue.list tokens2
                else ParamValue.str commandToken)]
            remainingCommandString := remainingCommandString
            subcommandsDir := subcommandsDir })
      | .ok none =>
        if env.isFile commandPath then
          .error (.cliError "MissingDefaultExportError")
        else
          .ok (some
            { passThrough := true
              commandName := commandName
              commandPath := commandPath
              commandTokens := [commandToken]
              params := [(paramName, ParamValue.str commandToken)]
              remainingCommandString := remainingCommandString
              subcommandsDir := subcommandsDir })
      | .error e =>
        if env.isFile commandPath then .error e
        else
          .ok (some
            { passThrough := true
              commandName := commandName
              commandPath := commandPath
              commandTokens := [commandToken]
              params := [(paramName, ParamValue.str commandToken)]
              remainingCommandString := remainingCommandString
              subcommandsDir := subcommandsDir })

/-- `resolveParamCommand({ commandString, commandsDir, parseFn })`: guard the
empty command string, read the directory and scan it for the first param
entry. -/
def resolveParamCommand (env : ResolveEnv)
    (parseFn : String → List String → List String) (commandString : String)
    (commandsDir : String) : Except JsError (Option ResolvedCommandM) :=
  if commandString.length = 0 then .error (.usageError "Command required.")
  else
    resolveParamLoop env parseFn commandString commandsDir
      (env.readdir commandsDir)

/- ### end of definitions ### -/

/-! ## Lemmas about the token utilities -/

theorem jsSplit_ne_nil (d : Char) (s : List Char) : jsSplit d s ≠ [] := by
  cases s with
  | nil => simp [jsSplit]
  | cons c rest =>
    simp only [jsSplit]
    cases h : jsSplit d rest with
    | nil => simp
    | cons t ts => by_cases hc : c = d <;> simp [hc]

theorem jsJoin_jsSplit (d : Char) (s : List Char) :
    jsJoin d (jsSplit d s) = s := by
  induction s with
  | nil => simp [jsSplit, jsJoin]
  | cons c rest ih =>
    simp only [jsSplit]
    cases h : jsSplit d rest with
    | nil => exact absurd h (jsSplit_ne_nil d rest)
    | cons t ts =>
      rw [h] at ih
      by_cases hc : c = d
      · subst hc
        simpa [jsJoin] using ih
      · simp only [if_neg hc]
        cases ts with
        | nil => simpa [jsJoin] using congrArg (c :: ·) ih
        | cons t2 ts2 => simpa [jsJoin] using congrArg (c :: ·) ih

theorem jsSplit_no_delim (d : Char) (s : List Char) :
    ∀ t ∈ jsSplit d s, d ∉ t := by
  induction s with
  | nil => simp [jsSplit]
  | cons c rest ih =>
    simp only [jsSplit]
    cases h : jsSplit d rest with
    | nil => exact absurd h (jsSplit_ne_nil d rest)
    | cons t ts =>
      rw [h] at ih
      by_cases hc : c = d
      · subst hc
        intro x hx
        simp only [if_pos rfl] at hx
        rcases List.mem_cons.mp hx with h1 | h1
        · subst h1; simp
        · exact ih x h1
      · intro x hx
        simp only [if_neg hc] at hx
        rcases List.mem_cons.mp hx with h1 | h1
        · subst h1
          intro hmem
          rcases List.mem_cons.mp hmem with h2 | h2
          · exact hc h2.symm
          · exact ih t (by simp) h2
        · exact ih x (by simp [h1])

theorem jsSplit_chars (d : Char) (s : List Char) :
    ∀ t ∈ jsSplit d s, ∀ c ∈ t, c ∈ s := by
  induction s with
  | nil => simp [jsSplit]
  | cons c rest ih =>
    simp only [jsSplit]
    cases h : jsSplit d rest with
    | nil => exact absurd h (jsSplit_ne_nil d rest)
    | cons t ts =>
      rw [h] at ih
      by_cases hc : c = d
      · subst hc
        intro x hx y hy
        simp only [if_pos rfl] at hx
        rcases List.mem_cons.mp hx with h1 | h1
        · subst h1; simp at hy
        · exact List.mem_cons_of_mem _ (ih x h1 y hy)
      · intro x hx y hy
        simp only [if_neg hc] at hx
        rcases List.mem_cons.mp hx with h1 | h1
        · subst h1
          rcases List.mem_cons.mp hy with h2 | h2
          · simp [h2]
          · exact List.mem_cons_of_mem _ (ih t (by simp) y h2)
        · exact List.mem_cons_of_mem _ (ih x (by simp [h1]) y hy)

theorem jsSplit_single (d : Char) (t : List Char) (h : d ∉ t) :
    jsSplit d t = [t] := by
  induction t with
  | nil => simp [jsSplit]
  | cons c rest ih =>
    have hc : c ≠ d := fun hh => h (by simp [hh])
    have : jsSplit d rest = [rest] := ih (fun hh => h (by simp [hh]))
    simp [jsSplit, this, hc]

theorem jsSplit_cons_delim (d : Char) (t rest : List Char) (h : d ∉ t) :
    jsSplit d (t ++ d :: rest) = t :: jsSplit d rest := by
  induction t with
  | nil =>
    simp only [List.nil_append, jsSplit]
    cases hr : jsSplit d rest with
    | nil => exact absurd hr (jsSplit_ne_nil d rest)
    | cons r rs => simp
  | cons c t' ih =>
    have hc : c ≠ d := fun hh => h (by simp [hh])
    have ih' : jsSplit d (t' ++ d :: rest) = t' :: jsSplit d rest :=
      ih (fun hh => h (by simp [hh]))
    simp [jsSplit, ih', hc]

theorem jsSplit_jsJoin (d : Char) (toks : List (List Char))
    (hne : toks ≠ []) (hd : ∀ t ∈ toks, d ∉ t) :
    jsSplit d (jsJoin d toks) = toks := by
  induction toks with
  | nil => exact absurd rfl hne
  | cons t ts ih =>
    cases ts with
    | nil => simpa [jsJoin] using jsSplit_single d t (hd t (by simp))
    | cons t2 ts2 =>
      have step : jsJoin d (t :: t2 :: ts2) = t ++ d :: jsJoin d (t2 :: ts2) :=
        rfl
      rw [step, jsSplit_cons_delim d t _ (hd t (by simp)),
        ih (by simp) (fun x hx => hd x (by simp [List.mem_cons.mp hx]))]

theorem mem_of_head?_eq (c : Char) (t : List Char) (h : t.head? = some c) :
    c ∈ t := by
  cases t with
  | nil => simp at h
  | cons x xs => simp only [List.head?_cons, Option.some.injEq] at h; simp [h]

theorem mem_of_getLast?_eq (c : Char) (t : List Char) (h : t.getLast? = some c) :
    c ∈ t := by
  rcases List.mem_getLast?_eq_getLast (show c ∈ t.getLast? by simpa using h) with
    ⟨hne, hEq⟩
  exact hEq ▸ List.getLast_mem hne

theorem splitTokensLoop_clean (d : Char) (toks acc cur : List (List Char))
    (h : ∀ t ∈ toks, '"' ∉ t) :
    splitTokensLoop d toks acc cur false = acc ++ toks := by
  induction toks generalizing acc cur with
  | nil => simp [splitTokensLoop]
  | cons t ts ih =>
    have ht : '"' ∉ t := h t (by simp)
    have hcond : ¬(t.head? = some '"' ∧ t.getLast? ≠ some '"') := by
      rintro ⟨h1, _⟩
      exact ht (mem_of_head?_eq _ _ h1)
    have hfilt : t.filter (· ≠ '"') = t := by
      rw [List.filter_eq_self]
      intro a ha
      have hne : a ≠ '"' := fun hq => ht (hq ▸ ha)
      simp [hne]
    rw [splitTokensLoop, if_neg hcond, hfilt,
      ih (acc ++ [t]) cur (fun x hx => h x (by simp [hx]))]
    simp

theorem splitTokensLoop_through (d : Char) (pre more acc cur : List (List Char))
    (h : ∀ t ∈ pre, '"' ∉ t) :
    splitTokensLoop d (pre ++ more) acc cur false =
      splitTokensLoop d more (acc ++ pre) cur false := by
  induction pre generalizing acc with
  | nil => simp
  | cons t ts ih =>
    have ht : '"' ∉ t := h t (by simp)
    have hcond : ¬(t.head? = some '"' ∧ t.getLast? ≠ some '"') := by
      rintro ⟨h1, _⟩
      exact ht (mem_of_head?_eq _ _ h1)
    have hfilt : t.filter (· ≠ '"') = t := by
      rw [List.filter_eq_self]
      intro a ha
      have hne : a ≠ '"' := fun hq => ht (hq ▸ ha)
      simp [hne]
    rw [List.cons_append, splitTokensLoop, if_neg hcond, hfilt,
      ih (acc ++ [t]) (fun x hx => h x (by simp [hx]))]
    simp

theorem splitTokensLoop_unclosed (d : Char) (rest acc cur : List (List Char))
    (h : ∀ t ∈ rest, t.getLast? ≠ some '"') :
    splitTokensLoop d rest acc cur true = acc := by
  induction rest generalizing cur with
  | nil => simp [splitTokensLoop]
  | cons t ts ih =>
    rw [splitTokensLoop, if_neg (h t (by simp))]
    exact ih (cur ++ [t]) (fun x hx => h x (by simp [hx]))

/-- C10: an opening quote with no matching closing quote makes `splitTokens`
silently discard everything from the opening quote to the end of the string:
the result is exactly the tokens that precede the opening quote.  `pre` and
`rest` are delimiter-free, quote-free tokens; `t` is the token that opens the
quote (starts with `"`, does not end with `"`). -/
theorem splitTokens_unclosed_quote_discarded
    (d : Char) (pre rest : List (List Char)) (t : List Char)
    (hpre : ∀ x ∈ pre, d ∉ x ∧ '"' ∉ x)
    (ht1 : t.head? = some '"') (ht2 : t.getLast? ≠ some '"') (htd : d ∉ t)
    (hrest : ∀ x ∈ rest, d ∉ x ∧ '"' ∉ x) :
    splitTokens (jsJoin d (pre ++ t :: rest)) d = pre := by
  have hall : ∀ x ∈ pre ++ t :: rest, d ∉ x := by
    intro x hx
    rcases List.mem_append.mp hx with h1 | h1
    · exact (hpre x h1).1
    · rcases List.mem_cons.mp h1 with h2 | h2
      · exact h2 ▸ htd
      · exact (hrest x h2).1
  have hsplit : jsSplit d (jsJoin d (pre ++ t :: rest)) = pre ++ t :: rest :=
    jsSplit_jsJoin d _ (by simp) hall
  have htne : t ≠ [] := by
    intro hh
    rw [hh] at ht1
    simp at ht1
  have hs_ne : jsJoin d (pre ++ t :: rest) ≠ [] := by
    intro hh
    rw [hh] at hsplit
    have heq : [([] : List Char)] = pre ++ t :: rest := by
      rw [← hsplit]; rfl
    cases pre with
    | nil =>
      simp only [List.nil_append, List.cons.injEq] at heq
      exact htne heq.1.symm
    | cons p ps =>
      have hlen := congrArg List.length heq
      simp at hlen
  have step1 : splitTokensLoop d (pre ++ t :: rest) [] [] false =
      splitTokensLoop d (t :: rest) pre [] false := by
    simpa using
      splitTokensLoop_through d pre (t :: rest) [] [] (fun x hx => (hpre x hx).2)
  have step2 : splitTokensLoop d (t :: rest) pre [] false =
      splitTokensLoop d rest pre [t.drop 1] true := by
    rw [splitTokensLoop, if_pos (And.intro ht1 ht2), List.nil_append]
  have step3 : splitTokensLoop d rest pre [t.drop 1] true = pre :=
    splitTokensLoop_unclosed d rest pre _ (fun x hx hlast =>
      (hrest x hx).2 (mem_of_getLast?_eq _ _ hlast))
  rw [splitTokens, if_neg hs_ne, hsplit, step1, step2, step3]

/-- Witness for `splitTokens_unclosed_quote_discarded` at a concrete input:
`splitTokens('a "bc d')` returns only `['a']`. -/
theorem splitTokens_unclosed_quote_discarded_witness :
    splitTokens ("a \"bc d".data) ' ' = ["a".data] := by
  have h := splitTokens_unclosed_quote_discarded ' ' ["a".data] ["d".data]
    ("\"bc".data) (by decide) (by decide) (by decide) (by decide) (by decide)
  simpa using h

theorem joinArr_str_of_no_space (d : Char) (w : Bool) (n : Nat)
    (toks : List (List Char)) (h : ∀ t ∈ toks, ' ' ∉ t) :
    joinArr (toks.map .str) d w n = toks := by
  induction toks with
  | nil => simp [joinArr]
  | cons t ts ih =>
    have hcond :
        ¬(w ∧ n > 1 ∧ ' ' ∈ t ∧
          ¬(t.head? = some '"' ∧ t.getLast? = some '"')) := by
      rintro ⟨_, _, hsp, _⟩
      exact h t (by simp) hsp
    simp only [List.map_cons, joinArr, joinTok, if_neg hcond]
    rw [ih (fun x hx => h x (by simp [hx]))]

/-- C7 (amended): `joinTokens(splitTokens(s)) == s` holds for every string `s`
that contains no double-quote character (with any spacing); a quoted token in
`s` has its quotes stripped by `splitTokens` and not restored by `joinTokens`
unless the token contains a space and has at least one sibling, which is what
the counterexample exhibits. -/
theorem joinTokens_splitTokens_roundtrip (s : List Char) (h : '"' ∉ s) :
    joinTokens [.arr ((splitTokens s ' ').map .str)] ' ' true = s := by
  by_cases hs : s = []
  · subst hs; rfl
  · have hsplitTok : splitTokens s ' ' = jsSplit ' ' s := by
      rw [splitTokens, if_neg hs]
      simpa using splitTokensLoop_clean ' ' (jsSplit ' ' s) [] []
        (fun t ht hq => h (jsSplit_chars ' ' s t ht '"' hq))
    rw [hsplitTok]
    show jsJoin ' '
        (joinArr [JTok.arr ((jsSplit ' ' s).map .str)] ' ' true 1) = s
    simp only [joinArr, joinTok]
    rw [joinArr_str_of_no_space ' ' true _ _
      (fun t ht hsp => jsSplit_no_delim ' ' s t ht hsp)]
    show jsJoin ' ' [jsJoin ' ' (jsSplit ' ' s)] = s
    rw [show ∀ x : List Char, jsJoin ' ' [x] = x from fun x => rfl]
    exact jsJoin_jsSplit ' ' s

/-- Witness for `joinTokens_splitTokens_roundtrip` at the concrete quote-free
input `'foo bar'`. -/
theorem joinTokens_splitTokens_roundtrip_witness :
    joinTokens [.arr ((splitTokens ("foo bar".data) ' ').map .str)] ' ' true =
      "foo bar".data :=
  joinTokens_splitTokens_roundtrip ("foo bar".data) (by decide)

/-- C7 counterexample: the input `'"a b"'` contains no nested quote and uses
single-space delimiters, yet `joinTokens(splitTokens('"a b"'))` evaluates to
`'a b'`, not `'"a b"'` — the round trip fails on a fully quoted string. -/
theorem joinTokens_splitTokens_roundtrip_cex :
    joinTokens [.arr ((splitTokens ("\"a b\"".data) ' ').map .str)] ' ' true ≠
      "\"a b\"".data := by decide

mutual

theorem flattenJTok_ne_nil : ∀ t : JTok, BenignTok t → flattenJTok t ≠ []
  | .str _s, _ => by simp [flattenJTok]
  | .arr l, h => by
    have := flattenArr_ne_nil l h.2 h.1
    simpa [flattenJTok] using this

theorem flattenArr_ne_nil :
    ∀ l : List JTok, BenignList l → l ≠ [] → flattenArr l ≠ []
  | [], _, hne => absurd rfl hne
  | t :: _ts, h, _ => by
    have h1 := flattenJTok_ne_nil t h.1
    simp only [flattenArr]
    intro hh
    exact h1 (List.append_eq_nil.mp hh).1

end

theorem jsJoin_append (d : Char) (xs ys : List (List Char))
    (hx : xs ≠ []) (hy : ys ≠ []) :
    jsJoin d (xs ++ ys) = jsJoin d xs ++ d :: jsJoin d ys := by
  induction xs with
  | nil => exact absurd rfl hx
  | cons x xs ih =>
    cases xs with
    | nil =>
      cases ys with
      | nil => exact absurd rfl hy
      | cons y ys2 => simp [jsJoin]
    | cons x2 xs2 =>
      have hstep := ih (by simp)
      calc jsJoin d ((x :: x2 :: xs2) ++ ys)
          = x ++ d :: jsJoin d ((x2 :: xs2) ++ ys) := rfl
        _ = x ++ d :: (jsJoin d (x2 :: xs2) ++ d :: jsJoin d ys) := by
            rw [hstep]
        _ = (x ++ d :: jsJoin d (x2 :: xs2)) ++ d :: jsJoin d ys := by simp
        _ = jsJoin d (x :: x2 :: xs2) ++ d :: jsJoin d ys := rfl

mutual

theorem joinTok_flatten (d : Char) (w : Bool) (n : Nat) :
    ∀ t : JTok, BenignTok t → joinTok t d w n = jsJoin d (flattenJTok t)
  | .str s, h => by
    have hcond :
        ¬(w ∧ n > 1 ∧ ' ' ∈ s ∧
          ¬(s.head? = some '"' ∧ s.getLast? = some '"')) := by
      rintro ⟨_, _, hsp, _⟩
      exact h hsp
    rw [joinTok, if_neg hcond]
    rfl
  | .arr l, h => by
    have := joinArr_flatten d w l.length l h.2 h.1
    simpa [joinTok, flattenJTok] using this

theorem joinArr_flatten (d : Char) (w : Bool) (n : Nat) :
    ∀ l : List JTok, BenignList l → l ≠ [] →
      jsJoin d (joinArr l d w n) = jsJoin d (flattenArr l)
  | [], _, hne => absurd rfl hne
  | [t], h, _ => by
    have := joinTok_flatten d w n t h.1
    simp [joinArr, flattenArr, jsJoin, this]
  | t :: t2 :: ts, h, _ => by
    have h1 := joinTok_flatten d w n t h.1
    have h2 := joinArr_flatten d w n (t2 :: ts) h.2 (by simp)
    have hf1 : flattenJTok t ≠ [] := flattenJTok_ne_nil t h.1
    have hf2 : flattenArr (t2 :: ts) ≠ [] :=
      flattenArr_ne_nil (t2 :: ts) h.2 (by simp)
    calc jsJoin d (joinArr (t :: t2 :: ts) d w n)
        = joinTok t d w n ++ d :: jsJoin d (joinArr (t2 :: ts) d w n) := rfl
      _ = jsJoin d (flattenJTok t) ++ d :: jsJoin d (flattenArr (t2 :: ts)) :=
          by rw [h1, h2]
      _ = jsJoin d (flattenJTok t ++ flattenArr (t2 :: ts)) :=
          (jsJoin_append d _ _ hf1 hf2).symm
      _ = jsJoin d (flattenArr (t :: t2 :: ts)) := rfl

end

/-- C8 (amended): `joinTokens` flattens arbitrarily nested non-empty lists;
empty strings are kept, not dropped (part three shows the doubled delimiter
they produce); and a token is wrapped in quotes — escaping inner quotes — iff
`wrapInQuotes` is true, the current argument list has more than one element,
the token contains a literal space character (regardless of the configured
delimiter), and the token does not already both start and end with a quote. -/
theorem joinTokens_behaviour :
    (∀ (args : List JTok) (d : Char) (w : Bool), BenignList args →
        joinTokens args d w = jsJoin d (flattenArr args)) ∧
    (∀ (s1 s2 : List Char) (d : Char), ' ' ∈ s1 →
        ¬(s1.head? = some '"' ∧ s1.getLast? = some '"') → ' ' ∉ s2 →
        joinTokens [.str s1, .str s2] d true =
          ('"' :: (escapeQuotes s1 ++ ['"'])) ++ d :: s2) ∧
    (∀ (a b : List Char) (d : Char), ' ' ∉ a → ' ' ∉ b →
        joinTokens [.str a, .str [], .str b] d true = a ++ d :: d :: b) := by
  refine ⟨?_, ?_, ?_⟩
  · intro args d w h
    cases args with
    | nil => rfl
    | cons t ts =>
      exact joinArr_flatten d w (t :: ts).length (t :: ts) h (by simp)
  · intro s1 s2 d h1 h2 h3
    show jsJoin d (joinArr [JTok.str s1, JTok.str s2] d true 2) = _
    simp only [joinArr, joinTok]
    rw [if_pos (show True ∧ 2 > 1 ∧ ' ' ∈ s1 ∧
        ¬(s1.head? = some '"' ∧ s1.getLast? = some '"') from
        ⟨trivial, by omega, h1, h2⟩)]
    rw [if_neg (fun hc : True ∧ 2 > 1 ∧ ' ' ∈ s2 ∧
        ¬(s2.head? = some '"' ∧ s2.getLast? = some '"') => h3 hc.2.2.1)]
    rfl
  · intro a b d ha hb
    show jsJoin d (joinArr [JTok.str a, JTok.str [], JTok.str b] d true 3) = _
    simp only [joinArr, joinTok]
    rw [if_neg (fun hc : True ∧ 3 > 1 ∧ ' ' ∈ a ∧
        ¬(a.head? = some '"' ∧ a.getLast? = some '"') => ha hc.2.2.1)]
    rw [if_neg (fun hc : True ∧ 3 > 1 ∧ ' ' ∈ ([] : List Char) ∧
        ¬(List.head? ([] : List Char) = some '"' ∧
          List.getLast? ([] : List Char) = some '"') =>
        absurd hc.2.2.1 (List.not_mem_nil ' '))]
    rw [if_neg (fun hc : True ∧ 3 > 1 ∧ ' ' ∈ b ∧
        ¬(b.head? = some '"' ∧ b.getLast? = some '"') => hb hc.2.2.1)]
    rfl

/-- Witness for `joinTokens_behaviour`: flattening of a nested benign tree with
a custom delimiter, quote wrapping of a space-bearing token, and preservation
of an empty-string argument, each at concrete inputs. -/
theorem joinTokens_behaviour_witness :
    joinTokens [.str "a".data, .arr [.str "b".data]] '/' true = "a/b".data ∧
    joinTokens [.str "a b".data, .str "c".data] ' ' true =
      "\"a b\" c".data ∧
    joinTokens [.str "a".data, .str "".data, .str "b".data] ' ' true =
      "a  b".data := by
  refine ⟨?_, ?_, ?_⟩
  · have h := joinTokens_behaviour.1 [.str "a".data, .arr [.str "b".data]] '/'
      true ⟨show ' ' ∉ "a".data by decide,
        ⟨⟨by simp, show ' ' ∉ "b".data by decide, trivial⟩, trivial⟩⟩
    exact h.trans (by decide)
  · have h := joinTokens_behaviour.2.1 ("a b".data) ("c".data) ' ' (by decide)
      (by decide) (by decide)
    exact h.trans (by decide)
  · have h := joinTokens_behaviour.2.2 ("a".data) ("b".data) ' ' (by decide)
      (by decide)
    exact h.trans (by decide)

/-- C8 counterexample: with the configured delimiter `','`, the token `'a,b'`
contains the delimiter yet is not wrapped in quotes, and the empty-string
argument is not dropped: the implementation returns `'a,b,,c'` where the
claimed behaviour (`joinTokensSpecC8`) returns `'"a,b",c'`. -/
theorem joinTokens_delimiter_wrap_cex :
    joinTokens [.str "a,b".data, .str "".data, .str "c".data] ',' true ≠
      joinTokensSpecC8 [.str "a,b".data, .str "".data, .str "c".data] ','
        true := by decide

/-! ## Lemmas about the hook registry -/

theorem runSeg_pure {Sig : Type} (mu : Nat → Sig → Sig)
    (seg : List HandlerAction) (st : HookState Sig)
    (h : ∀ a ∈ seg, isMutate a = true) :
    runSeg mu seg st = { st with payload := applySeg mu seg st.payload } := by
  induction seg generalizing st with
  | nil => simp [runSeg, applySeg]
  | cons a rest ih =>
    cases a with
    | mutate i =>
      have step : runSeg mu (HandlerAction.mutate i :: rest) st =
          runSeg mu rest { st with payload := mu i st.payload } := rfl
      rw [step, ih _ (fun x hx => h x (by simp [hx]))]
      rfl
    | onAdd hook hid =>
      have hm := h (HandlerAction.onAdd hook hid) (by simp)
      simp [isMutate] at hm
    | onceAdd hook hid =>
      have hm := h (HandlerAction.onceAdd hook hid) (by simp)
      simp [isMutate] at hm

theorem runBody_pure {Sig : Type} (mu : Nat → Sig → Sig) (b : HandlerBody)
    (st : HookState Sig) (h : PureBody b) :
    runBody mu b st = { st with payload := applyBody mu b st.payload } := by
  induction b generalizing st with
  | nil => simp [runBody, applyBody]
  | cons seg rest ih =>
    have step : runBody mu (seg :: rest) st = runBody mu rest (runSeg mu seg st) :=
      rfl
    rw [step, runSeg_pure mu seg st (h seg (by simp)),
      ih _ (fun s hs => h s (by simp [hs]))]
    rfl

theorem callLoop_pure {Sig : Type} (mu : Nat → Sig → Sig)
    (bodies : Nat → HandlerBody) (hook : String) (aid : Nat)
    (es : List HandlerEntry) (fuel : Nat) :
    ∀ (i : Nat) (st : HookState Sig), st.heap.getD aid [] = es →
      (∀ e ∈ es, e.wrapped = false) →
      (∀ e ∈ es, PureBody (bodies e.hid)) →
      es.length - i ≤ fuel →
      callLoop mu bodies hook aid fuel i st =
        { st with payload := (es.drop i).foldl (fun q e => applyBody mu (bodies e.hid) q) st.payload } := by
  induction fuel with
  | zero =>
    intro i st hes _hplain _hpure hfuel
    have hge : es.length ≤ i := by omega
    rw [List.drop_eq_nil_of_le hge]
    rfl
  | succ fuel ih =>
    intro i st hes hplain hpure hfuel
    cases hget : es.get? i with
    | none =>
      have hge : es.length ≤ i := List.get?_eq_none.mp hget
      have hstep : callLoop mu bodies hook aid (fuel + 1) i st = st := by
        rw [callLoop, hes, hget]
      rw [hstep, List.drop_eq_nil_of_le hge]
      rfl
    | some e =>
      have hmem : e ∈ es := List.get?_mem hget
      rcases List.get?_eq_some.mp hget with ⟨hl, hEq0⟩
      have hEq : es[i] = e := by simpa using hEq0
      have hinv : invokeEntry mu bodies hook e st =
          { st with payload := applyBody mu (bodies e.hid) st.payload } := by
        rw [invokeEntry, if_neg (by simp [hplain e hmem])]
        exact runBody_pure mu _ st (hpure e hmem)
      have hstep : callLoop mu bodies hook aid (fuel + 1) i st =
          callLoop mu bodies hook aid fuel (i + 1)
            (invokeEntry mu bodies hook e st) := by
        rw [callLoop, hes, hget]
      rw [hstep, hinv,
        ih (i + 1) { st with payload := applyBody mu (bodies e.hid) st.payload }
          hes hplain hpure (by omega)]
      have hdrop : es.drop i = e :: es.drop (i + 1) := by
        rw [List.drop_eq_getElem_cons hl, hEq]

      rw [hdrop]
      rfl

/-- C3 (amended): `HookRegistry.call` invokes the handlers of the hook's
current array sequentially in registration order, passing the same payload to
each so that mutations made by one handler are visible to the subsequent ones,
and it fully awaits every handler registered via `on`: for an array of plain
handlers the state at `call`'s resolution carries the left fold of all the
handler bodies over the payload and no deferred work.  (Handlers registered
via `once` are invoked but NOT awaited — see the counterexample — so the
"including handlers registered via once" part of the claim fails.) -/
theorem hookCall_sequential {Sig : Type} (mu : Nat → Sig → Sig)
    (bodies : Nat → HandlerBody) (hook : String) (fuel : Nat)
    (st : HookState Sig) (aid : Nat)
    (haid : lookupHook st hook = some aid)
    (hplain : ∀ e ∈ st.heap.getD aid [], e.wrapped = false)
    (hpure : ∀ e ∈ st.heap.getD aid [], PureBody (bodies e.hid))
    (hfuel : (st.heap.getD aid []).length ≤ fuel) :
    hookCall mu bodies hook fuel st =
      { st with payload := (st.heap.getD aid []).foldl (fun q e => applyBody mu (bodies e.hid) q) st.payload } := by
  have hstep : hookCall mu bodies hook fuel st =
      callLoop mu bodies hook aid fuel 0 st := by
    rw [hookCall, haid]
  rw [hstep]
  simpa using callLoop_pure mu bodies hook aid (st.heap.getD aid []) fuel 0 st
    rfl hplain hpure (by omega)

/-- Witness for `hookCall_sequential`: two handlers registered via `on` run in
registration order on the shared payload (`0 ↦ 10*0+0+1 = 1 ↦ 10*1+1+1 = 12`),
and `call` leaves no deferred work. -/
theorem hookCall_sequential_witness :
    hookCall (fun i n => 10 * n + i + 1) (fun h => [[HandlerAction.mutate h]])
      "h" 2 (hookOn "h" false 1 (hookOn "h" false 0 (emptyHooks (0 : Nat)))) =
      { heap := [[⟨0, false, 0⟩, ⟨1, false, 1⟩]], hooks := [("h", 0)],
        fresh := 2, payload := 12, deferred := [] } := by
  have h := hookCall_sequential (fun i n => 10 * n + i + 1)
    (fun h => [[HandlerAction.mutate h]]) "h" 2
    (hookOn "h" false 1 (hookOn "h" false 0 (emptyHooks (0 : Nat)))) 0
    (by decide) (by decide) (by decide) (by decide)
  exact h.trans (by decide)

/-- C3 counterexample: an async handler registered via `once` (body with two
segments separated by an `await`) is invoked but not awaited by `call`: when
`call`'s promise resolves the shared payload has only seen the first segment
(`[0]`), and the handler's remainder is still pending; it completes only later
(`[0, 1]`).  So `call` does NOT resolve only after every invoked handler has
completed. -/
theorem hookCall_once_not_awaited_cex :
    (hookCall (fun i l => l ++ [i])
        (fun h => if h = 0 then [[HandlerAction.mutate 0], [HandlerAction.mutate 1]] else [])
        "h" 4 (hookOn "h" true 0 (emptyHooks ([] : List Nat)))).payload = [0] ∧
    (drainDeferred (fun i l => l ++ [i])
        (hookCall (fun i l => l ++ [i])
          (fun h => if h = 0 then [[HandlerAction.mutate 0], [HandlerAction.mutate 1]] else [])
          "h" 4 (hookOn "h" true 0 (emptyHooks ([] : List Nat))))).payload = [0, 1] := by
  exact ⟨rfl, rfl⟩

/-- C4 (amended): a handler appended to the hook's array via `on` while a
`call` on that hook is in progress IS invoked by the in-progress call: `call`
iterates the live array object (`for (const handler of handlers)` over the
array that `on` pushes onto), so the loop reaches the appended entry.  Here
handler `0` registers handler `1` during the call, and the resolved state
shows both bodies applied (`mu b (mu a p)`). -/
theorem hookCall_added_during_call_invoked {Sig : Type} (mu : Nat → Sig → Sig)
    (a b : Nat) (p : Sig) :
    hookCall mu
      (fun h => if h = 0 then [[HandlerAction.mutate a, HandlerAction.onAdd "h" 1]] else [[HandlerAction.mutate b]])
      "h" 2 (hookOn "h" false 0 (emptyHooks p)) =
      { heap := [[⟨0, false, 0⟩, ⟨1, false, 1⟩]], hooks := [("h", 0)],
        fresh := 2, payload := mu b (mu a p), deferred := [] } := rfl

/-- C4 counterexample: handler `0` (which logs `7`) registers a new handler
`1` (which logs `9`) on the same hook during the call; at `call`'s resolution
the payload log is `[7, 9]` with nothing deferred — the handler added during
the in-progress call WAS invoked by it, contradicting the claim that it is
never invoked. -/
theorem hookCall_added_during_call_cex :
    (hookCall (fun i l => l ++ [i])
        (fun h => if h = 0 then [[HandlerAction.mutate 7, HandlerAction.onAdd "h" 1]] else [[HandlerAction.mutate 9]])
        "h" 3 (hookOn "h" false 0 (emptyHooks ([] : List Nat)))).payload = [7, 9] ∧
    (hookCall (fun i l => l ++ [i])
        (fun h => if h = 0 then [[HandlerAction.mutate 7, HandlerAction.onAdd "h" 1]] else [[HandlerAction.mutate 9]])
        "h" 3 (hookOn "h" false 0 (emptyHooks ([] : List Nat)))).deferred = [] := by
  exact ⟨rfl, rfl⟩

/-! ## Lemmas about Context.throw -/

theorem runErrorActions_spec {E : Type} (acts : List (ErrorAction E)) (e : E)
    (b : Bool) :
    runErrorActions acts (e, b) =
      (acts.foldl (fun e a =>
          match a with
          | .setError e2 => e2
          | .ignore => e) e,
        b || acts.any (fun a =>
          match a with
          | .ignore => true
          | _ => false)) := by
  induction acts generalizing e b with
  | nil => simp [runErrorActions]
  | cons a rest ih =>
    cases a with
    | setError e2 =>
      have step : runErrorActions (ErrorAction.setError e2 :: rest) (e, b) =
          runErrorActions rest (e2, b) := rfl
      rw [step, ih]
      simp
    | ignore =>
      have step : runErrorActions (ErrorAction.ignore :: rest) (e, b) =
          runErrorActions rest (e, true) := rfl
      rw [step, ih]
      simp

theorem errorFold_spec {E : Type} (handlers : List (List (ErrorAction E)))
    (e : E) (b : Bool) :
    handlers.foldl (fun s acts => runErrorActions acts s) (e, b) =
      (replacedError handlers e, b || ignoresError handlers) := by
  induction handlers generalizing e b with
  | nil => simp [replacedError, ignoresError]
  | cons acts rest ih =>
    rw [List.foldl_cons, runErrorActions_spec, ih]
    simp [replacedError, ignoresError, Bool.or_assoc]

/-- C2: `Context.throw(err)` calls the `beforeError` hook with a payload whose
`error` field is `err` (the first component), and then: if no handler called
`ignore`, it rethrows the error as replaced by the `setError` calls, in
handler order; if some handler called `ignore`, nothing is thrown and nothing
else happens — execution is left in its current state. -/
theorem contextThrow_behaviour {E : Type}
    (handlers : List (List (ErrorAction E))) (err : E) :
    contextThrow handlers err =
      (err,
        if ignoresError handlers then none
        else some (replacedError handlers err)) := by
  show (err,
      if (handlers.foldl (fun s acts => runErrorActions acts s)
          (err, false)).2 then none
      else some (handlers.foldl (fun s acts => runErrorActions acts s)
          (err, false)).1) = _
  rw [errorFold_spec]
  simp

/-! ## Lemmas about Context.execute -/

theorem beforeExecuteFold_flat {V : Type}
    (handlers : List (List (BeforeExecuteAction V))) (init : V × V × Bool) :
    handlers.foldl (fun s acts => runBeforeExecuteActions acts s) init =
      runBeforeExecuteActions handlers.flatten init := by
  unfold runBeforeExecuteActions
  exact (List.foldl_join _ init handlers).symm

theorem afterExecuteFold_flat {V : Type}
    (handlers : List (List (AfterExecuteAction V))) (r : V) :
    handlers.foldl (fun r acts => runAfterExecuteActions acts r) r =
      runAfterExecuteActions handlers.flatten r := by
  unfold runAfterExecuteActions
  exact (List.foldl_join _ r handlers).symm

theorem runBeforeExecuteActions_spec {V : Type}
    (acts : List (BeforeExecuteAction V)) (d r0 : V) (sk0 : Bool)
    (hni : hasSetInitialData acts = false) :
    runBeforeExecuteActions acts (d, r0, sk0) =
      (d, resultAfter acts r0, sk0 || callsSkip acts) := by
  induction acts generalizing r0 sk0 with
  | nil => simp [runBeforeExecuteActions, resultAfter, callsSkip]
  | cons a rest ih =>
    have hni' : hasSetInitialData rest = false := by
      cases a <;> simpa [hasSetInitialData] using hni
    cases a with
    | skip =>
      have step :
          runBeforeExecuteActions (BeforeExecuteAction.skip :: rest)
            (d, r0, sk0) = runBeforeExecuteActions rest (d, r0, true) := rfl
      rw [step, ih r0 true hni']
      simp [resultAfter, callsSkip]
    | setResultAndSkip v =>
      have step :
          runBeforeExecuteActions
            (BeforeExecuteAction.setResultAndSkip v :: rest) (d, r0, sk0) =
            runBeforeExecuteActions rest (d, v, true) := rfl
      rw [step, ih v true hni']
      simp [resultAfter, callsSkip]
    | setInitialData v =>
      simp [hasSetInitialData] at hni

/-- C1 (amended): for every execution in which a `beforeExecute` handler calls
`skip()` (or `setResultAndSkip`), provided no handler calls `setInitialData`
and no `afterExecute` handler overrides the result via `setResult`:
`state.start` is never invoked, the `afterExecute` payload is the object
`{ result, state, setResult }` — it has no `skipped` field — its `result`
field is the last value passed to `setResultAndSkip` (else the initial data),
and `Context.execute` returns that same value. -/
theorem contextExecute_skipped {V E : Type} (env : ExecuteEnv V E) (d : V)
    (hskip : callsSkip env.beforeExecute.flatten = true)
    (hni : hasSetInitialData env.beforeExecute.flatten = false)
    (hna : env.afterExecute.flatten = []) :
    contextExecute env d =
      .ok { result := resultAfter env.beforeExecute.flatten d
            started := false
            afterPayloadFields := ["result", "state", "setResult"]
            afterPayloadResult := resultAfter env.beforeExecute.flatten d } := by
  unfold contextExecute
  rw [beforeExecuteFold_flat,
    runBeforeExecuteActions_spec env.beforeExecute.flatten d d false hni]
  simp [hskip, afterExecuteFold_flat, hna, runAfterExecuteActions]
  rw [← List.foldl_join, hna]
  rfl

/-- Witness for `contextExecute_skipped`: a `beforeExecute` handler calls
`skip()` and a later one calls `setResultAndSkip(42)` on a context that is
not even ready; execute returns 42 without starting the state. -/
theorem contextExecute_skipped_witness :
    contextExecute (E := Nat)
      { beforeExecute := [[BeforeExecuteAction.skip],
          [BeforeExecuteAction.setResultAndSkip 42]]
        afterExecute := []
        beforeError := []
        isReady := false
        startFn := fun v => .ok v
        notReadyErr := 0 } 7 =
      .ok { result := 42
            started := false
            afterPayloadFields := ["result", "state", "setResult"]
            afterPayloadResult := 42 } := by
  have h := contextExecute_skipped (E := Nat)
    { beforeExecute := [[BeforeExecuteAction.skip],
        [BeforeExecuteAction.setResultAndSkip 42]]
      afterExecute := []
      beforeError := []
      isReady := false
      startFn := fun v => .ok v
      notReadyErr := 0 } 7 (by decide) (by decide) (by decide)
  exact h.trans (by rfl)

/-- C1 counterexample: in an execution whose `beforeExecute` handler calls
`skip()`, the payload passed to `afterExecute` is the object literal
`{ result, state, setResult }` — it has NO `skipped` field at all, so the
claimed `afterExecute.skipped == true` is false (the returned result does
equal the initial data here, as the claim's second half says). -/
theorem afterExecute_payload_no_skipped_cex :
    (contextExecute (E := Nat)
        { beforeExecute := [[BeforeExecuteAction.skip]]
          afterExecute := []
          beforeError := []
          isReady := true
          startFn := fun v => .ok v
          notReadyErr := 0 } (5 : Nat)).map
      (fun r => (r.afterPayloadFields.contains "skipped", r.result,
        r.started)) =
    .ok (false, 5, false) := by rfl

/-- C5 (amended): two plugins sharing a name do NOT raise a `PluginError`:
the constructor's `Object.fromEntries` info map collapses the duplicates to a
single entry holding the LAST duplicate's metadata, and `preparePlugins`
invokes only the FIRST duplicate's `init` — the second is skipped because the
shared info entry is already marked ready.  Preparation completes normally
(`.ok`), with no error of any kind. -/
theorem duplicate_plugin_names_collapse (E : Type) (name : String)
    (v1 v2 : Option String) :
    preparePlugins ([] : List (List (ErrorAction E)))
      [⟨name, v1, none⟩, ⟨name, v2, none⟩] =
      .ok ([(name, ⟨name, v2, true⟩)], [0]) := by
  simp [preparePlugins, preparePluginsLoop, buildPluginInfos, lookupInfo,
    setReady]

/-- C5 counterexample: a `Context` constructed with two plugins both named
`"p"` (versions 1.0.0 and 2.0.0) raises no `PluginError` — the constructor
and `preparePlugins` complete normally: the info map has a single `"p"` entry
carrying the second plugin's metadata, and only the first plugin's `init`
(index 0) ever ran. -/
theorem duplicate_plugins_no_pluginError_cex :
    preparePlugins ([] : List (List (ErrorAction JsError)))
      [⟨"p", some "1.0.0", none⟩, ⟨"p", some "2.0.0", none⟩] =
      .ok ([("p", ⟨"p", some "2.0.0", true⟩)], [0]) := by rfl

/-- C6: the `run` facade's exception translation — a thrown `ClientError` is
returned as the result instead of rethrown; a thrown `CliError` (that is not
a `ClientError`) is rethrown unchanged; any other thrown value is wrapped in
a new `CliError` and rethrown. -/
theorem run_error_translation (V : Type) :
    (∀ e : JsError, instanceofClientError e = true →
        runCatch (V := V) (.error e) = .ok (.clientErr e)) ∧
    (∀ e : JsError, instanceofClientError e = false →
        instanceofCliError e = true →
        runCatch (V := V) (.error e) = .error e) ∧
    (∀ e : JsError, instanceofCliError e = false →
        runCatch (V := V) (.error e) = .error (.wrappedCliError e)) := by
  refine ⟨?_, ?_, ?_⟩
  · intro e h
    simp [runCatch, h]
  · intro e h1 h2
    simp [runCatch, h1, h2]
  · intro e h
    cases e <;> simp_all [runCatch, instanceofClientError, instanceofCliError]

/-- Witness for `run_error_translation` at one concrete error per branch. -/
theorem run_error_translation_witness :
    runCatch (V := Nat) (.error (.clientError "x")) =
      .ok (.clientErr (.clientError "x")) ∧
    runCatch (V := Nat) (.error (.usageError "u")) =
      .error (.usageError "u") ∧
    runCatch (V := Nat) (.error (.otherError "o")) =
      .error (.wrappedCliError (.otherError "o")) :=
  ⟨(run_error_translation Nat).1 (.clientError "x") (by rfl),
    (run_error_translation Nat).2.1 (.usageError "u") (by rfl) (by rfl),
    (run_error_translation Nat).2.2 (.otherError "o") (by rfl)⟩

/-- C9 (amended): when the spread param path resolves to a loadable module
(here one with no `options` config), `params[name]` is the full token list of
the input command string and the remaining command string of the resolved
command is emptied.  (When the module declares `options`, the token list is
first re-parsed by `parseFn`, dropping option flags — so "verbatim" only holds
without them — and when the spread path is a directory, the pass-through
fallback stores only the first token; see the counterexample.) -/
theorem resolveParamCommand_spread_module
    (imp : String → Except JsError (Option CommandModuleM))
    (isf : String → Bool) (parseFn : String → List String → List String)
    (cs : String) (hcs : ¬ cs.length = 0)
    (himp : imp "cmds/[...rest]" = .ok (some ⟨none⟩)) :
    resolveParamCommand ⟨fun _ => ["[...rest]"], imp, isf⟩ parseFn cs "cmds" =
      .ok (some
        { passThrough := false
          commandName := "[...rest]"
          commandPath := "cmds/[...rest]"
          commandTokens := splitTokensS cs
          params := [("rest", ParamValue.list (splitTokensS cs))]
          remainingCommandString := ""
          subcommandsDir := "cmds/[...rest]" }) := by
  rw [resolveParamCommand, if_neg hcs]
  show resolveParamLoop ⟨fun _ => ["[...rest]"], imp, isf⟩ parseFn cs "cmds"
    ["[...rest]"] = _
  simp only [resolveParamLoop,
    show (parseFileName "[...rest]").2 = some "rest" from rfl,
    show (parseFileName "[...rest]").1 = true from rfl,
    show removeFileExtension "[...rest]" = "[...rest]" from rfl,
    show formatFileName "[...rest]" = "[...rest]" from rfl,
    show joinPath "cmds" "[...rest]" = "cmds/[...rest]" from rfl,
    show removeFileExtension "cmds/[...rest]" = "cmds/[...rest]" from rfl,
    himp, if_true]

/-- Witness for `resolveParamCommand_spread_module`: resolving `'a b c'`
against a directory whose only entry is the spread module `[...rest]` (no
options) gives `params.rest = ['a', 'b', 'c']` and an empty remaining
command string. -/
theorem resolveParamCommand_spread_module_witness :
    resolveParamCommand
      { readdir := fun _ => ["[...rest]"]
        importMod := fun _ => .ok (some ⟨none⟩)
        isFile := fun _ => false }
      (fun s _ => splitTokensS s) "a b c" "cmds" =
      .ok (some
        { passThrough := false
          commandName := "[...rest]"
          commandPath := "cmds/[...rest]"
          commandTokens := ["a", "b", "c"]
          params := [("rest", ParamValue.list ["a", "b", "c"])]
          remainingCommandString := ""
          subcommandsDir := "cmds/[...rest]" }) := by
  have h := resolveParamCommand_spread_module (fun _ => .ok (some ⟨none⟩))
    (fun _ => false) (fun s _ => splitTokensS s) "a b c" (by decide) (by rfl)
  exact h.trans (by rfl)

/-- C9 counterexample: a spread segment that falls back to the pass-through
directory branch does NOT store the remainder of the input tokens: resolving
`'a b c'` against a directory whose `[...rest]` entry is itself a directory
(the import throws and the path is not a file) stores
`params.rest = 'a'` — only the current token, as a string — not
`['a', 'b', 'c']`; the remaining command string is emptied as claimed. -/
theorem resolveParamCommand_spread_dir_cex :
    resolveParamCommand
      { readdir := fun _ => ["[...rest]"]
        importMod := fun _ => .error (.otherError "ERR_UNSUPPORTED_DIR_IMPORT")
        isFile := fun _ => false }
      (fun s _ => splitTokensS s) "a b c" "cmds" =
      .ok (some
        { passThrough := true
          commandName := "[...rest]"
          commandPath := "cmds/[...rest]"
          commandTokens := ["a"]
          params := [("rest", ParamValue.str "a")]
          remainingCommandString := ""
          subcommandsDir := "cmds/[...rest]" }) := by rfl
